import Mathlib

/-!
Verification of the shape-inference and diff engine of api-inspector-server
(`src/diff/analyzer.ts`), via a shallow embedding in Lean 4.

The embedding mirrors the TypeScript source:
  * `JsonValue`   — decoded JSON values (plus `undefined` and an
    unclassifiable kind), the input domain of `extractShape`;
  * `ShapeValue`  — the `ShapeValue` type of the source: a primitive type
    tag (string), an object shape, an array shape, or `null`;
  * `getTypeName`, `extractShape`, `extractArrayShape` — the shape
    extractor (analyzer.ts lines 19-111);
  * `getFieldPaths`, `getTypeAtPath` — path enumeration and type
    resolution (lines 144-192);
  * `analyzeEndpointDiffs` — the diff analyzer (lines 197-257).

JavaScript `Set`s (insertion-ordered, deduplicated) are modelled as
`List String` built with `insertPath`; JavaScript `Map`s, which the source
only reads and writes per key (never iterates), are modelled as functions
with the source's default values (`0` for the occurrence map, the empty
set for the type map).
-/

/-- Decoded JSON values as seen by `extractShape` (its `any` argument).
`num` carries a rational so that integer and non-integer numbers are both
representable (the source asks `Number.isInteger`); `unknownVal` stands for
a runtime value of unclassifiable kind (`typeof` not covered). -/
inductive JsonValue where
  | null : JsonValue
  | undef : JsonValue
  | num (q : ℚ) : JsonValue
  | str (s : String) : JsonValue
  | bool (b : Bool) : JsonValue
  | obj (fields : List (String × JsonValue)) : JsonValue
  | arr (elems : List JsonValue) : JsonValue
  | unknownVal : JsonValue

/-- The `ShapeValue` type of analyzer.ts (lines 4-14):
`string | ShapeObject | ShapeArray | null`. Object fields are kept in
insertion order, as a JavaScript object does. -/
inductive ShapeValue where
  | prim (tag : String) : ShapeValue
  | obj (fields : List (String × ShapeValue)) : ShapeValue
  | arr (elems : List ShapeValue) : ShapeValue
  | nullShape : ShapeValue

/-- `getTypeName` (analyzer.ts lines 19-34). The branch on
`Number.isInteger` returns `'number'` either way, exactly as the source
does. -/
def getTypeName : JsonValue → String
  | .null => "null"
  | .undef => "undefined"
  | .arr _ => "array"
  | .obj _ => "object"
  | .num q => if q.den = 1 then "number" else "number"
  | .bool _ => "boolean"
  | .str _ => "string"
  | .unknownVal => "unknown"

mutual

/-- `extractShape` (analyzer.ts lines 72-111): null and undefined first,
then primitives by their `getTypeName` tag, arrays via
`extractArrayShape`, and objects by recursing over the fields. -/
def extractShape : JsonValue → ShapeValue
  | .null => .prim "null"
  | .undef => .prim "undefined"
  | .num q => .prim (getTypeName (.num q))
  | .str s => .prim (getTypeName (.str s))
  | .bool b => .prim (getTypeName (.bool b))
  | .unknownVal => .prim (getTypeName .unknownVal)
  | .arr elems => extractArrayShape elems
  | .obj fields => .obj (extractObjFields fields)
termination_by structural v => v

/-- `extractArrayShape` (analyzer.ts lines 40-55), applied to the array's
element list: empty array gives `['unknown']`; otherwise only the first
element is inspected, dispatching on its `getTypeName` kind. -/
def extractArrayShape : List JsonValue → ShapeValue
  | [] => .arr [.prim "unknown"]
  | .obj fs :: _ => .arr [extractShape (.obj fs)]
  | .arr es :: _ => .arr [extractArrayShape es]
  | first :: _ => .arr [.prim (getTypeName first)]
termination_by structural l => l

/-- The `for (const key in jsonObject)` loop of `extractShape`
(analyzer.ts lines 92-108): each value is dispatched on its
`getTypeName`: objects recurse through `extractShape`, arrays through
`extractArrayShape`, anything else becomes its primitive tag. -/
def extractObjFields : List (String × JsonValue) → List (String × ShapeValue)
  | [] => []
  | (key, .obj fs) :: rest => (key, extractShape (.obj fs)) :: extractObjFields rest
  | (key, .arr es) :: rest => (key, extractArrayShape es) :: extractObjFields rest
  | (key, value) :: rest => (key, .prim (getTypeName value)) :: extractObjFields rest
termination_by structural l => l

end

/-- Insertion into a JavaScript `Set` modelled as a list: append the
element at the end unless it is already present (insertion order is
preserved, duplicates are not). -/
def insertPath (l : List String) (p : String) : List String :=
  if p ∈ l then l else l ++ [p]

mutual

/-- `getFieldPaths` (analyzer.ts lines 144-171). A string (primitive tag)
or array shape contributes `{prefix}` when the prefix is non-empty; a
`null` shape contributes nothing (it fails the `shape !== null` test); an
object shape iterates its keys. -/
def getFieldPaths (shape : ShapeValue) (pre : String) : List String :=
  match shape with
  | .prim _ => if pre = "" then [] else [pre]
  | .arr _ => if pre = "" then [] else [pre]
  | .nullShape => []
  | .obj fields => getFieldPathsObj fields pre []
termination_by structural shape

/-- The key loop of `getFieldPaths` (analyzer.ts lines 158-167): for each
key, add `prefix.key` (or `key` at the root), then add every nested path
that differs from it. -/
def getFieldPathsObj (fields : List (String × ShapeValue)) (pre : String)
    (acc : List String) : List String :=
  match fields with
  | [] => acc
  | (key, value) :: rest =>
      let fieldPath := if pre = "" then key else pre ++ "." ++ key
      let acc1 := insertPath acc fieldPath
      let nested := getFieldPaths value fieldPath
      let acc2 := nested.foldl
        (fun ps p => if p = fieldPath then ps else insertPath ps p) acc1
      getFieldPathsObj rest pre acc2
termination_by structural fields

end

/-- Field access `current[part]` on an object shape: first binding of the
key, `none` when the key is absent (JavaScript yields `undefined`). -/
def lookupField : List (String × ShapeValue) → String → Option ShapeValue
  | [], _ => none
  | (k, v) :: rest, key => if k = key then some v else lookupField rest key

/-- The walking loop and final classification of `getTypeAtPath`
(analyzer.ts lines 180-191). The current node is an `Option ShapeValue`,
`none` standing for JavaScript `undefined`. While segments remain, only a
non-null, non-array object can be descended; anything else returns
`'unknown'` at once. At the end, a string tag is returned as-is, an array
classifies as `'array'`, an object as `'object'`, anything else as
`'unknown'`. -/
def walkTypeAtPath : Option ShapeValue → List String → String
  | cur, [] =>
      match cur with
      | some (.prim t) => t
      | some (.arr _) => "array"
      | some (.obj _) => "object"
      | _ => "unknown"
  | cur, part :: rest =>
      match cur with
      | some (.obj fields) => walkTypeAtPath (lookupField fields part) rest
      | _ => "unknown"

/-- Accumulator for `splitOnDot`: the characters of the current segment
are collected in reverse. -/
def splitDotAux : List Char → List Char → List String
  | [], cur => [String.mk cur.reverse]
  | c :: rest, cur =>
      if c = Char.ofNat 46 then String.mk cur.reverse :: splitDotAux rest []
      else splitDotAux rest (c :: cur)

/-- JavaScript `path.split('.')` (analyzer.ts line 177): split on every
dot (character 46), keeping empty segments, with `""` splitting to
`[""]`. -/
def splitOnDot (s : String) : List String := splitDotAux s.data []

/-- `getTypeAtPath` (analyzer.ts lines 176-192): split the path on `.` and
walk. -/
def getTypeAtPath (shape : ShapeValue) (path : String) : String :=
  walkTypeAtPath (some shape) (splitOnDot path)

/-- `GroupedEndpoint` (analyzer.ts lines 117-126). `avgDuration` is a
JavaScript number never consumed by the algorithm; an integer stands in
for it. -/
structure GroupedEndpoint where
  method : String
  path : String
  requestCount : Nat
  shapes : List ShapeValue
  firstSeen : Nat
  lastSeen : Nat
  statusCodes : List Nat
  avgDuration : Int

/-- `EndpointDiffAnalysis` (analyzer.ts lines 134-139). -/
structure EndpointDiffAnalysis where
  endpoint : String
  inconsistencies : List String
  shapes : List ShapeValue
  totalShapes : Nat

/-- The aggregation state of `analyzeEndpointDiffs` (analyzer.ts lines
212-214): the `allFields` set (insertion-ordered list) and the
`fieldOccurrences` / `fieldTypes` maps, modelled as functions with the
source's defaults (`get(field) || 0`, and the empty type set installed on
first touch). -/
structure AnalyzerState where
  allFields : List String
  occ : String → Nat
  types : String → List String

/-- The empty aggregation state. -/
def initAnalyzerState : AnalyzerState :=
  { allFields := [], occ := fun _ => 0, types := fun _ => [] }

/-- The body of the inner field loop (analyzer.ts lines 220-230): add the
field to `allFields`, bump its occurrence count, and add
`getTypeAtPath(shape, field)` to its type set. -/
def processField (st : AnalyzerState) (shape : ShapeValue) (field : String) :
    AnalyzerState :=
  { allFields := insertPath st.allFields field
    occ := fun f => if f = field then st.occ field + 1 else st.occ f
    types := fun f =>
      if f = field then insertPath (st.types field) (getTypeAtPath shape field)
      else st.types f }

/-- One iteration of the outer shape loop (analyzer.ts lines 217-231):
fold the field loop over `getFieldPaths(shape)`. -/
def processShape (st : AnalyzerState) (shape : ShapeValue) : AnalyzerState :=
  (getFieldPaths shape "").foldl (fun s f => processField s shape f) st

/-- The whole collection phase of `analyzeEndpointDiffs` (analyzer.ts
lines 212-231). -/
def collectState (shapes : List ShapeValue) : AnalyzerState :=
  shapes.foldl processShape initAnalyzerState

/-- The missing-field message of analyzer.ts line 241:
`field '{field}' missing in {missingCount} response{missingCount > 1 ? 's' : ''}`. -/
def missingMsg (field : String) (missingCount : Nat) : String :=
  "field \x27" ++ field ++ "\x27 missing in " ++ toString missingCount ++
    " response" ++ (if 1 < missingCount then "s" else "")

/-- The type-inconsistency message of analyzer.ts line 247:
`field '{field}' has inconsistent types: {typeList}` with the type set
joined by `', '` in insertion order. -/
def typesMsg (field : String) (types : List String) : String :=
  "field \x27" ++ field ++ "\x27 has inconsistent types: " ++
    String.intercalate ", " types

/-- The detection loop of `analyzeEndpointDiffs` (analyzer.ts lines
234-249): for each field of `allFields` in order, push the missing-field
message when its occurrence count is below the number of shapes, then the
type message when its type set has more than one member. -/
def detectInconsistencies (n : Nat) (st : AnalyzerState) : List String :=
  st.allFields.foldl
    (fun acc field =>
      let occurrences := st.occ field
      let types := st.types field
      let acc1 :=
        if occurrences < n then acc ++ [missingMsg field (n - occurrences)]
        else acc
      if 1 < types.length then acc1 ++ [typesMsg field types] else acc1)
    []

/-- `analyzeEndpointDiffs` (analyzer.ts lines 197-257). With at most one
shape it returns immediately with no inconsistencies; otherwise it
aggregates all shapes and runs the detection loop. -/
def analyzeEndpointDiffs (endpoint : GroupedEndpoint) : EndpointDiffAnalysis :=
  if endpoint.shapes.length ≤ 1 then
    { endpoint := endpoint.method ++ " " ++ endpoint.path
      inconsistencies := []
      shapes := endpoint.shapes
      totalShapes := endpoint.shapes.length }
  else
    let st := collectState endpoint.shapes
    { endpoint := endpoint.method ++ " " ++ endpoint.path
      inconsistencies := detectInconsistencies endpoint.shapes.length st
      shapes := endpoint.shapes
      totalShapes := endpoint.shapes.length }

/-! ## Specification-side characterisations

The following definitions transcribe §4.2 of the specification (steps 2-6)
directly: the field universe as the union of every shape's paths, the
per-path occurrence count, the per-path first-seen-ordered type set, and
the two messages each path may contribute. They are written from the
spec's words, to be compared with the stateful aggregation loop embedded
above. -/

/-- Spec §4.2 step 2: the field universe, the union over all observed
shapes of their field paths, in first-seen order. -/
def fieldUniverseList (shapes : List ShapeValue) : List String :=
  shapes.foldl (fun acc s => (getFieldPaths s "").foldl insertPath acc) []

/-- Spec §4.2 step 3: the occurrence count of a path, the number of shapes
whose path set contains it. -/
def specOccCount (shapes : List ShapeValue) (f : String) : Nat :=
  shapes.countP (fun s => decide (f ∈ getFieldPaths s ""))

/-- Auxiliary accumulator for `specTypeSet`, walking the shapes in order. -/
def specTypeSetAux (shapes : List ShapeValue) (f : String) (acc : List String) :
    List String :=
  match shapes with
  | [] => acc
  | s :: rest =>
      specTypeSetAux rest f
        (if f ∈ getFieldPaths s "" then insertPath acc (getTypeAtPath s f) else acc)

/-- Spec §4.2 step 3: the type set of a path, collecting the tag resolved
at the path in each shape that contains it (shapes not containing the path
contribute nothing), deduplicated, in first-seen order. -/
def specTypeSet (shapes : List ShapeValue) (f : String) : List String :=
  specTypeSetAux shapes f []

/-- Spec §4.2 steps 4-6: the messages one path contributes — a
missing-field message exactly when its occurrence count is below the
number of shapes, then a type message exactly when its type set has more
than one member. -/
def specMessagesAt (n : Nat) (shapes : List ShapeValue) (f : String) :
    List String :=
  (if specOccCount shapes f < n then
      [missingMsg f (n - specOccCount shapes f)]
    else []) ++
  (if 1 < (specTypeSet shapes f).length then
      [typesMsg f (specTypeSet shapes f)]
    else [])

/-- Spec §4.2 steps 4-6 over the whole field universe, in order. -/
def specInconsistencies (shapes : List ShapeValue) : List String :=
  ((fieldUniverseList shapes).map (specMessagesAt shapes.length shapes)).flatten

/-- The structured content of the detection loop's missing-field branch
(analyzer.ts lines 239-242): the fields of `allFields` whose occurrence
count is below the number of shapes, paired with their missing counts. -/
def reportedMissingPairs (shapes : List ShapeValue) : List (String × Nat) :=
  (collectState shapes).allFields.filterMap (fun f =>
    if (collectState shapes).occ f < shapes.length then
      some (f, shapes.length - (collectState shapes).occ f)
    else none)

/-- The structured content of the detection loop's type branch
(analyzer.ts lines 245-248): the fields of `allFields` whose type set has
more than one member. -/
def typeConflictFields (shapes : List ShapeValue) : List String :=
  (collectState shapes).allFields.filter
    (fun f => 1 < ((collectState shapes).types f).length)

/-- Discriminates shapes whose root is a primitive type tag or an array
shape (the non-object, non-null roots). -/
def rootNonObject : ShapeValue → Bool
  | .prim _ => true
  | .arr _ => true
  | .obj _ => false
  | .nullShape => false

/-- The worked example of §8 of the specification: two observed shapes,
the second lacking `email` and disagreeing with the first on the type of
`age`. -/
def sampleEndpoint : GroupedEndpoint :=
  { method := "GET", path := "/users", requestCount := 2
    shapes :=
      [ .obj [("id", .prim "number"), ("name", .prim "string"),
              ("email", .prim "string"), ("age", .prim "number")],
        .obj [("id", .prim "number"), ("name", .prim "string"),
              ("age", .prim "string")] ]
    firstSeen := 0, lastSeen := 0, statusCodes := [200], avgDuration := 0 }

/-- `sampleEndpoint` with its two shapes swapped. -/
def sampleEndpointSwapped : GroupedEndpoint :=
  { method := "GET", path := "/users", requestCount := 2
    shapes :=
      [ .obj [("id", .prim "number"), ("name", .prim "string"),
              ("age", .prim "string")],
        .obj [("id", .prim "number"), ("name", .prim "string"),
              ("email", .prim "string"), ("age", .prim "number")] ]
    firstSeen := 0, lastSeen := 0, statusCodes := [200], avgDuration := 0 }

/-- An endpoint observed once. -/
def singleShapeEndpoint : GroupedEndpoint :=
  { method := "GET", path := "/users", requestCount := 1
    shapes := [.obj [("id", .prim "number")]]
    firstSeen := 0, lastSeen := 0, statusCodes := [200], avgDuration := 0 }

/-- An endpoint whose three observations all have the same shape. -/
def uniformEndpoint : GroupedEndpoint :=
  { method := "GET", path := "/users", requestCount := 3
    shapes := List.replicate 3 (.obj [("id", .prim "number")])
    firstSeen := 0, lastSeen := 0, statusCodes := [200], avgDuration := 0 }

/-- An endpoint whose observations are all bare scalars of different
types. -/
def scalarEndpoint : GroupedEndpoint :=
  { method := "GET", path := "/count", requestCount := 2
    shapes := [.prim "number", .prim "string"]
    firstSeen := 0, lastSeen := 0, statusCodes := [200], avgDuration := 0 }

/-! ## Basic lemmas about `insertPath` -/

theorem mem_insertPath {l : List String} {p a : String} :
    a ∈ insertPath l p ↔ a ∈ l ∨ a = p := by
  unfold insertPath
  split
  · next h => constructor
              · exact fun ha => Or.inl ha
              · rintro (ha | rfl)
                · exact ha
                · exact h
  · simp [List.mem_append]

theorem insertPath_nodup {l : List String} (h : l.Nodup) (p : String) :
    (insertPath l p).Nodup := by
  unfold insertPath
  split
  · exact h
  · next hp => simpa [List.nodup_append] using ⟨h, fun hmem => hp hmem⟩

theorem insertPath_of_mem {l : List String} {p : String} (h : p ∈ l) :
    insertPath l p = l := by
  unfold insertPath
  exact if_pos h

/-- Folding `insertPath` over a list preserves `Nodup` of the
accumulator. -/
theorem nodup_foldl_insertPath (l : List String) :
    ∀ acc : List String, acc.Nodup → (l.foldl insertPath acc).Nodup := by
  induction l with
  | nil => intro acc h; simpa using h
  | cons p rest ih =>
      intro acc h
      exact ih (insertPath acc p) (insertPath_nodup h p)

/-- Membership after folding `insertPath`: the accumulated set is the
union of the accumulator and the list. -/
theorem mem_foldl_insertPath (l : List String) :
    ∀ (acc : List String) (a : String),
      a ∈ l.foldl insertPath acc ↔ a ∈ acc ∨ a ∈ l := by
  induction l with
  | nil => intro acc a; simp
  | cons p rest ih =>
      intro acc a
      rw [List.foldl_cons, ih]
      rw [mem_insertPath]
      constructor
      · rintro ((h | rfl) | h)
        · exact Or.inl h
        · exact Or.inr (List.mem_cons_self _ _)
        · exact Or.inr (List.mem_cons_of_mem _ h)
      · rintro (h | h)
        · exact Or.inl (Or.inl h)
        · rcases List.mem_cons.mp h with rfl | h
          · exact Or.inl (Or.inr rfl)
          · exact Or.inr h

/-- The guarded insertion loop over nested paths preserves `Nodup`. -/
theorem nodup_foldl_guardInsert (l : List String) (fp : String) :
    ∀ acc : List String, acc.Nodup →
      (l.foldl (fun ps p => if p = fp then ps else insertPath ps p) acc).Nodup := by
  induction l with
  | nil => intro acc h; simpa using h
  | cons p rest ih =>
      intro acc h
      rw [List.foldl_cons]
      by_cases hp : p = fp
      · rw [if_pos hp]; exact ih acc h
      · rw [if_neg hp]; exact ih _ (insertPath_nodup h p)

/-! ## `getFieldPaths` produces a duplicate-free list -/

theorem getFieldPathsObj_nodup (fields : List (String × ShapeValue)) :
    ∀ (pre : String) (acc : List String), acc.Nodup →
      (getFieldPathsObj fields pre acc).Nodup := by
  induction fields with
  | nil => intro pre acc h; simpa [getFieldPathsObj] using h
  | cons kv rest ih =>
      intro pre acc h
      obtain ⟨key, value⟩ := kv
      rw [getFieldPathsObj]
      exact ih pre _ (nodup_foldl_guardInsert _ _ _ (insertPath_nodup h _))

theorem getFieldPaths_nodup (shape : ShapeValue) (pre : String) :
    (getFieldPaths shape pre).Nodup := by
  cases shape with
  | prim t => rw [getFieldPaths]; split <;> simp
  | arr es => rw [getFieldPaths]; split <;> simp
  | nullShape => rw [getFieldPaths]; exact List.nodup_nil
  | obj fields => rw [getFieldPaths]; exact getFieldPathsObj_nodup fields pre [] List.nodup_nil

/-! ## Characterising the aggregation loop -/

/-- Folding the field loop over a duplicate-free field list: `allFields`
grows by insertion, each listed field's occurrence count is bumped exactly
once, each listed field's type set gains the tag resolved in this shape,
and nothing else changes. -/
theorem foldl_processField_spec (shape : ShapeValue) (fs : List String)
    (hnd : fs.Nodup) :
    ∀ st : AnalyzerState,
      (fs.foldl (fun s f => processField s shape f) st).allFields =
          fs.foldl insertPath st.allFields
      ∧ (∀ f, (fs.foldl (fun s f => processField s shape f) st).occ f =
          st.occ f + (if f ∈ fs then 1 else 0))
      ∧ (∀ f, (fs.foldl (fun s f => processField s shape f) st).types f =
          if f ∈ fs then insertPath (st.types f) (getTypeAtPath shape f)
          else st.types f) := by
  induction fs with
  | nil => intro st; refine ⟨rfl, fun f => by simp, fun f => by simp⟩
  | cons f0 rest ih =>
      intro st
      obtain ⟨h0, hrest⟩ := List.nodup_cons.mp hnd
      obtain ⟨ha, ho, ht⟩ := ih hrest (processField st shape f0)
      refine ⟨?_, ?_, ?_⟩
      · rw [List.foldl_cons, ha]; rfl
      · intro f
        rw [List.foldl_cons, ho f]
        by_cases hf : f ∈ rest
        · have hne : f ≠ f0 := fun h => h0 (h ▸ hf)
          simp [processField, hf, hne, List.mem_cons]
        · by_cases hf0 : f = f0
          · subst hf0
            simp [processField, hf, h0]
          · simp [processField, hf, hf0, List.mem_cons]
      · intro f
        rw [List.foldl_cons, ht f]
        by_cases hf : f ∈ rest
        · have hne : f ≠ f0 := fun h => h0 (h ▸ hf)
          simp [processField, hf, hne, List.mem_cons]
        · by_cases hf0 : f = f0
          · subst hf0
            simp [processField, hf, h0]
          · simp [processField, hf, hf0, List.mem_cons]

theorem processShape_allFields (st : AnalyzerState) (shape : ShapeValue) :
    (processShape st shape).allFields =
      (getFieldPaths shape "").foldl insertPath st.allFields :=
  (foldl_processField_spec shape _ (getFieldPaths_nodup shape "") st).1

theorem processShape_occ (st : AnalyzerState) (shape : ShapeValue) (f : String) :
    (processShape st shape).occ f =
      st.occ f + (if f ∈ getFieldPaths shape "" then 1 else 0) :=
  (foldl_processField_spec shape _ (getFieldPaths_nodup shape "") st).2.1 f

theorem processShape_types (st : AnalyzerState) (shape : ShapeValue) (f : String) :
    (processShape st shape).types f =
      if f ∈ getFieldPaths shape "" then
        insertPath (st.types f) (getTypeAtPath shape f)
      else st.types f :=
  (foldl_processField_spec shape _ (getFieldPaths_nodup shape "") st).2.2 f

/-- Folding the shape loop: `allFields` accumulates every shape's paths,
the occurrence count adds the number of shapes containing the field, and
the type set extends by the tags of the shapes that contain the field. -/
theorem foldl_processShape_spec (shapes : List ShapeValue) :
    ∀ st : AnalyzerState,
      (shapes.foldl processShape st).allFields =
          shapes.foldl (fun acc s => (getFieldPaths s "").foldl insertPath acc)
            st.allFields
      ∧ (∀ f, (shapes.foldl processShape st).occ f =
          st.occ f + shapes.countP (fun s => decide (f ∈ getFieldPaths s "")))
      ∧ (∀ f, (shapes.foldl processShape st).types f =
          specTypeSetAux shapes f (st.types f)) := by
  induction shapes with
  | nil => intro st; exact ⟨rfl, fun f => by simp [List.countP_nil], fun f => rfl⟩
  | cons s rest ih =>
      intro st
      obtain ⟨ha, ho, ht⟩ := ih (processShape st s)
      refine ⟨?_, ?_, ?_⟩
      · rw [List.foldl_cons, ha, processShape_allFields, List.foldl_cons]
      · intro f
        rw [List.foldl_cons, ho f, processShape_occ, List.countP_cons]
        by_cases hf : f ∈ getFieldPaths s ""
        · simp [hf]; omega
        · simp [hf]
      · intro f
        rw [List.foldl_cons, ht f, processShape_types]
        by_cases hf : f ∈ getFieldPaths s ""
        · rw [if_pos hf, specTypeSetAux, if_pos hf]
        · rw [if_neg hf, specTypeSetAux, if_neg hf]

theorem collectState_allFields (shapes : List ShapeValue) :
    (collectState shapes).allFields = fieldUniverseList shapes :=
  (foldl_processShape_spec shapes initAnalyzerState).1

theorem collectState_occ (shapes : List ShapeValue) (f : String) :
    (collectState shapes).occ f = specOccCount shapes f := by
  have h := (foldl_processShape_spec shapes initAnalyzerState).2.1 f
  simpa [initAnalyzerState, specOccCount] using h

theorem collectState_types (shapes : List ShapeValue) (f : String) :
    (collectState shapes).types f = specTypeSet shapes f :=
  (foldl_processShape_spec shapes initAnalyzerState).2.2 f

/-! ## Characterising the detection loop -/

/-- Pushing onto an accumulator in a fold is concatenation of per-field
message blocks. -/
theorem foldl_detect_append (n : Nat) (st : AnalyzerState)
    (fields : List String) :
    ∀ acc : List String,
      fields.foldl
        (fun acc field =>
          let occurrences := st.occ field
          let types := st.types field
          let acc1 :=
            if occurrences < n then acc ++ [missingMsg field (n - occurrences)]
            else acc
          if 1 < types.length then acc1 ++ [typesMsg field types] else acc1)
        acc =
      acc ++
        (fields.map (fun field =>
          (if st.occ field < n then [missingMsg field (n - st.occ field)]
           else []) ++
          (if 1 < (st.types field).length then [typesMsg field (st.types field)]
           else []))).flatten := by
  induction fields with
  | nil => intro acc; simp
  | cons f0 rest ih =>
      intro acc
      rw [List.foldl_cons, ih]
      simp only [List.map_cons, List.flatten_cons, ← List.append_assoc]
      congr 1
      by_cases h1 : st.occ f0 < n
      · by_cases h2 : 1 < (st.types f0).length
        · simp [h1, h2]
        · simp [h1, h2]
      · by_cases h2 : 1 < (st.types f0).length
        · simp [h1, h2]
        · simp [h1, h2]

/-- The detection loop emits, for each field of `allFields` in order, its
missing-field message (when the occurrence count is short) followed by its
type message (when the type set has two or more members). -/
theorem detectInconsistencies_eq (n : Nat) (st : AnalyzerState) :
    detectInconsistencies n st =
      (st.allFields.map (fun field =>
        (if st.occ field < n then [missingMsg field (n - st.occ field)]
         else []) ++
        (if 1 < (st.types field).length then [typesMsg field (st.types field)]
         else []))).flatten := by
  have h := foldl_detect_append n st st.allFields []
  simpa [detectInconsistencies] using h

/-- The analyzer's inconsistency list, for two or more shapes, coincides
with the specification-side description: one block of at most two messages
per field-universe path, determined by its occurrence count and its type
set. -/
theorem analyzeEndpointDiffs_inconsistencies_spec (e : GroupedEndpoint)
    (h : 2 ≤ e.shapes.length) :
    (analyzeEndpointDiffs e).inconsistencies = specInconsistencies e.shapes := by
  have hgt : ¬ e.shapes.length ≤ 1 := by omega
  rw [analyzeEndpointDiffs, if_neg hgt]
  show detectInconsistencies e.shapes.length (collectState e.shapes) =
    specInconsistencies e.shapes
  rw [detectInconsistencies_eq, collectState_allFields, specInconsistencies]
  congr 1
  apply List.map_congr_left
  intro f _
  rw [collectState_occ, collectState_types, specMessagesAt]

/-! ## Membership characterisations of the spec-side sets -/

theorem mem_fieldUniverse_aux (shapes : List ShapeValue) :
    ∀ (acc : List String) (f : String),
      f ∈ shapes.foldl
            (fun acc s => (getFieldPaths s "").foldl insertPath acc) acc ↔
        f ∈ acc ∨ ∃ s ∈ shapes, f ∈ getFieldPaths s "" := by
  induction shapes with
  | nil => intro acc f; simp
  | cons s rest ih =>
      intro acc f
      rw [List.foldl_cons, ih, mem_foldl_insertPath]
      constructor
      · rintro ((h | h) | h)
        · exact Or.inl h
        · exact Or.inr ⟨s, List.mem_cons_self _ _, h⟩
        · obtain ⟨s2, hs2, hf⟩ := h
          exact Or.inr ⟨s2, List.mem_cons_of_mem _ hs2, hf⟩
      · rintro (h | ⟨s2, hs2, hf⟩)
        · exact Or.inl (Or.inl h)
        · rcases List.mem_cons.mp hs2 with rfl | hs2
          · exact Or.inl (Or.inr hf)
          · exact Or.inr ⟨s2, hs2, hf⟩

theorem mem_fieldUniverseList {shapes : List ShapeValue} {f : String} :
    f ∈ fieldUniverseList shapes ↔ ∃ s ∈ shapes, f ∈ getFieldPaths s "" := by
  rw [fieldUniverseList, mem_fieldUniverse_aux]
  simp

theorem fieldUniverseList_nodup (shapes : List ShapeValue) :
    (fieldUniverseList shapes).Nodup := by
  rw [fieldUniverseList]
  generalize hacc : ([] : List String) = acc
  have hnd : acc.Nodup := hacc ▸ List.nodup_nil
  clear hacc
  induction shapes generalizing acc with
  | nil => simpa using hnd
  | cons s rest ih =>
      rw [List.foldl_cons]
      exact ih _ (nodup_foldl_insertPath _ _ hnd)

theorem mem_specTypeSetAux (shapes : List ShapeValue) (f : String) :
    ∀ (acc : List String) (t : String),
      t ∈ specTypeSetAux shapes f acc ↔
        t ∈ acc ∨ ∃ s ∈ shapes, f ∈ getFieldPaths s "" ∧ getTypeAtPath s f = t := by
  induction shapes with
  | nil => intro acc t; simp [specTypeSetAux]
  | cons s rest ih =>
      intro acc t
      rw [specTypeSetAux, ih]
      by_cases hf : f ∈ getFieldPaths s ""
      · rw [if_pos hf, mem_insertPath]
        constructor
        · rintro ((h | rfl) | h)
          · exact Or.inl h
          · exact Or.inr ⟨s, List.mem_cons_self _ _, hf, rfl⟩
          · obtain ⟨s2, hs2, hf2, ht2⟩ := h
            exact Or.inr ⟨s2, List.mem_cons_of_mem _ hs2, hf2, ht2⟩
        · rintro (h | ⟨s2, hs2, hf2, ht2⟩)
          · exact Or.inl (Or.inl h)
          · rcases List.mem_cons.mp hs2 with rfl | hs2
            · exact Or.inl (Or.inr ht2.symm)
            · exact Or.inr ⟨s2, hs2, hf2, ht2⟩
      · rw [if_neg hf]
        constructor
        · rintro (h | h)
          · exact Or.inl h
          · obtain ⟨s2, hs2, hf2, ht2⟩ := h
            exact Or.inr ⟨s2, List.mem_cons_of_mem _ hs2, hf2, ht2⟩
        · rintro (h | ⟨s2, hs2, hf2, ht2⟩)
          · exact Or.inl h
          · rcases List.mem_cons.mp hs2 with rfl | hs2
            · exact absurd hf2 hf
            · exact Or.inr ⟨s2, hs2, hf2, ht2⟩

theorem mem_specTypeSet {shapes : List ShapeValue} {f t : String} :
    t ∈ specTypeSet shapes f ↔
      ∃ s ∈ shapes, f ∈ getFieldPaths s "" ∧ getTypeAtPath s f = t := by
  rw [specTypeSet, mem_specTypeSetAux]
  simp

theorem specTypeSetAux_nodup (shapes : List ShapeValue) (f : String) :
    ∀ acc : List String, acc.Nodup → (specTypeSetAux shapes f acc).Nodup := by
  induction shapes with
  | nil => intro acc h; simpa [specTypeSetAux] using h
  | cons s rest ih =>
      intro acc h
      rw [specTypeSetAux]
      by_cases hf : f ∈ getFieldPaths s ""
      · rw [if_pos hf]; exact ih _ (insertPath_nodup h _)
      · rw [if_neg hf]; exact ih _ h

theorem specTypeSet_nodup (shapes : List ShapeValue) (f : String) :
    (specTypeSet shapes f).Nodup :=
  specTypeSetAux_nodup shapes f [] List.nodup_nil

/-! ## Structured views of the detection conditions -/

theorem mem_reportedMissingPairs {shapes : List ShapeValue} {f : String}
    {k : Nat} :
    (f, k) ∈ reportedMissingPairs shapes ↔
      f ∈ fieldUniverseList shapes ∧ specOccCount shapes f < shapes.length ∧
        k = shapes.length - specOccCount shapes f := by
  simp only [reportedMissingPairs, List.mem_filterMap, collectState_occ,
    collectState_allFields]
  constructor
  · rintro ⟨a, ha, hsome⟩
    by_cases h : specOccCount shapes a < shapes.length
    · rw [if_pos h, Option.some.injEq, Prod.mk.injEq] at hsome
      obtain ⟨rfl, rfl⟩ := hsome
      exact ⟨ha, h, rfl⟩
    · rw [if_neg h] at hsome
      exact absurd hsome (by simp)
  · rintro ⟨hf, h, rfl⟩
    exact ⟨f, hf, by rw [if_pos h]⟩

theorem mem_typeConflictFields {shapes : List ShapeValue} {f : String} :
    f ∈ typeConflictFields shapes ↔
      f ∈ fieldUniverseList shapes ∧ 1 < (specTypeSet shapes f).length := by
  simp only [typeConflictFields, List.mem_filter, collectState_allFields,
    collectState_types, decide_eq_true_eq]

/-- A duplicate-free list has two or more entries exactly when it holds
two different elements. -/
theorem one_lt_length_iff_of_nodup {l : List String} (h : l.Nodup) :
    1 < l.length ↔ ∃ a ∈ l, ∃ b ∈ l, a ≠ b := by
  cases l with
  | nil => simp
  | cons a t =>
      cases t with
      | nil => simp
      | cons b t2 =>
          constructor
          · intro _
            refine ⟨a, List.mem_cons_self _ _,
              b, List.mem_cons_of_mem _ (List.mem_cons_self _ _), ?_⟩
            intro hab
            exact (List.nodup_cons.mp h).1 (hab ▸ List.mem_cons_self _ _)
          · intro _
            simp [List.length_cons]

/-! ## Permutation invariance of the detection conditions -/

theorem perm_mem_fieldUniverseList {s1 s2 : List ShapeValue}
    (h : s1.Perm s2) (f : String) :
    f ∈ fieldUniverseList s1 ↔ f ∈ fieldUniverseList s2 := by
  rw [mem_fieldUniverseList, mem_fieldUniverseList]
  constructor <;> rintro ⟨s, hs, hf⟩
  · exact ⟨s, h.mem_iff.mp hs, hf⟩
  · exact ⟨s, h.mem_iff.mpr hs, hf⟩

theorem perm_specOccCount {s1 s2 : List ShapeValue} (h : s1.Perm s2)
    (f : String) : specOccCount s1 f = specOccCount s2 f :=
  h.countP_eq _

theorem perm_mem_specTypeSet {s1 s2 : List ShapeValue} (h : s1.Perm s2)
    (f t : String) : t ∈ specTypeSet s1 f ↔ t ∈ specTypeSet s2 f := by
  rw [mem_specTypeSet, mem_specTypeSet]
  constructor <;> rintro ⟨s, hs, hf, ht⟩
  · exact ⟨s, h.mem_iff.mp hs, hf, ht⟩
  · exact ⟨s, h.mem_iff.mpr hs, hf, ht⟩

theorem perm_typeConflict_iff {s1 s2 : List ShapeValue} (h : s1.Perm s2)
    (f : String) :
    1 < (specTypeSet s1 f).length ↔ 1 < (specTypeSet s2 f).length := by
  rw [one_lt_length_iff_of_nodup (specTypeSet_nodup s1 f),
    one_lt_length_iff_of_nodup (specTypeSet_nodup s2 f)]
  constructor <;> rintro ⟨a, ha, b, hb, hab⟩
  · exact ⟨a, (perm_mem_specTypeSet h f a).mp ha,
      b, (perm_mem_specTypeSet h f b).mp hb, hab⟩
  · exact ⟨a, (perm_mem_specTypeSet h f a).mpr ha,
      b, (perm_mem_specTypeSet h f b).mpr hb, hab⟩

/-! ## Uniform shape lists -/

theorem specOccCount_replicate (n : Nat) (s : ShapeValue) (f : String)
    (h : f ∈ getFieldPaths s "") :
    specOccCount (List.replicate n s) f = n := by
  induction n with
  | zero => simp [specOccCount]
  | succ m ih =>
      rw [specOccCount, List.replicate_succ, List.countP_cons] at *
      simp [h, ih]

theorem specTypeSetAux_replicate_stable (s : ShapeValue) (f : String)
    (m : Nat) :
    ∀ acc : List String, (f ∈ getFieldPaths s "" → getTypeAtPath s f ∈ acc) →
      specTypeSetAux (List.replicate m s) f acc = acc := by
  induction m with
  | zero => intro acc _; rfl
  | succ k ih =>
      intro acc hacc
      rw [List.replicate_succ, specTypeSetAux]
      by_cases hf : f ∈ getFieldPaths s ""
      · rw [if_pos hf, insertPath_of_mem (hacc hf)]
        exact ih acc hacc
      · rw [if_neg hf]
        exact ih acc hacc

theorem specTypeSet_replicate_succ (s : ShapeValue) (f : String) (m : Nat)
    (h : f ∈ getFieldPaths s "") :
    specTypeSet (List.replicate (m + 1) s) f = [getTypeAtPath s f] := by
  rw [specTypeSet, List.replicate_succ, specTypeSetAux, if_pos h]
  have hi : insertPath [] (getTypeAtPath s f) = [getTypeAtPath s f] := by
    simp [insertPath]
  rw [hi]
  exact specTypeSetAux_replicate_stable s f m _ (fun _ => List.mem_singleton.mpr rfl)

/-- `walkTypeAtPath` at an undefined node is always `'unknown'`. -/
theorem walkTypeAtPath_none (l : List String) :
    walkTypeAtPath none l = "unknown" := by
  cases l <;> rfl

/-! ## The claims -/

/-- Claim C1: for every endpoint with at least two shapes, the analyzer
emits, per field-universe path and in universe order, exactly one
missing-field message when the path's occurrence count is below the shape
count (text `field '{path}' missing in {N - occurrence} response(s)`, the
plural `s` appearing exactly when more than one response lacks it, as
`missingMsg` spells out), and exactly one type message when the path's
type set has more than one member (text `field '{path}' has inconsistent
types: ` with the comma-joined tags in first-seen order, as `typesMsg`
spells out); the two checks are independent, one path can contribute both
messages. The universe is duplicate-free, so each path is considered
exactly once. -/
theorem analyzeEndpointDiffs_message_structure (e : GroupedEndpoint)
    (h : 2 ≤ e.shapes.length) :
    (analyzeEndpointDiffs e).inconsistencies =
      ((fieldUniverseList e.shapes).map (fun f =>
        (if specOccCount e.shapes f < e.shapes.length then
            [missingMsg f (e.shapes.length - specOccCount e.shapes f)]
          else []) ++
        (if 1 < (specTypeSet e.shapes f).length then
            [typesMsg f (specTypeSet e.shapes f)]
          else []))).flatten
    ∧ (fieldUniverseList e.shapes).Nodup := by
  refine ⟨?_, fieldUniverseList_nodup e.shapes⟩
  rw [analyzeEndpointDiffs_inconsistencies_spec e h, specInconsistencies]
  congr 1

/-- Witness for C1 at the two-shape sample endpoint. -/
theorem analyzeEndpointDiffs_message_structure_witness :
    2 ≤ sampleEndpoint.shapes.length ∧
      ((analyzeEndpointDiffs sampleEndpoint).inconsistencies =
        ((fieldUniverseList sampleEndpoint.shapes).map (fun f =>
          (if specOccCount sampleEndpoint.shapes f <
              sampleEndpoint.shapes.length then
              [missingMsg f (sampleEndpoint.shapes.length -
                specOccCount sampleEndpoint.shapes f)]
            else []) ++
          (if 1 < (specTypeSet sampleEndpoint.shapes f).length then
              [typesMsg f (specTypeSet sampleEndpoint.shapes f)]
            else []))).flatten
      ∧ (fieldUniverseList sampleEndpoint.shapes).Nodup) :=
  ⟨by decide, analyzeEndpointDiffs_message_structure sampleEndpoint (by decide)⟩

/-- Claim C2: on the two shapes of §8 of the specification — the second
lacking `email` and holding `age` as a string — the analyzer reports
exactly that `email` is missing in 1 response (no plural `s`) and that
`age` has the inconsistent types `number, string`, and nothing else. -/
theorem analyzeEndpointDiffs_sample_two_shapes :
    (analyzeEndpointDiffs sampleEndpoint).inconsistencies =
      ["field \x27email\x27 missing in 1 response",
       "field \x27age\x27 has inconsistent types: number, string"] := by
  decide

/-- Claim C3: with zero or one observed shape the analyzer returns at once
with an empty inconsistency list, whatever the shapes hold, while the
endpoint identity string (`method path` separated by one space), the
shapes and the shape count are still populated. -/
theorem analyzeEndpointDiffs_few_shapes_short_circuit (e : GroupedEndpoint)
    (h : e.shapes.length ≤ 1) :
    analyzeEndpointDiffs e =
      { endpoint := e.method ++ " " ++ e.path
        inconsistencies := []
        shapes := e.shapes
        totalShapes := e.shapes.length } := by
  rw [analyzeEndpointDiffs, if_pos h]

/-- Witness for C3 at a one-shape endpoint with non-trivial content. -/
theorem analyzeEndpointDiffs_few_shapes_short_circuit_witness :
    singleShapeEndpoint.shapes.length ≤ 1 ∧
      analyzeEndpointDiffs singleShapeEndpoint =
        { endpoint :=
            singleShapeEndpoint.method ++ " " ++ singleShapeEndpoint.path
          inconsistencies := []
          shapes := singleShapeEndpoint.shapes
          totalShapes := singleShapeEndpoint.shapes.length } :=
  ⟨by decide,
    analyzeEndpointDiffs_few_shapes_short_circuit singleShapeEndpoint (by decide)⟩

/-- Claim C4: after aggregation, every path's occurrence count equals the
number of shapes whose path set contains it, and its type set is exactly
the tags resolved at the path in the shapes containing it, in first-seen
order: a shape not containing the path contributes neither an occurrence
nor a type (its failed resolution is excluded rather than recorded as
`unknown`), as the membership characterisation of the type set makes
explicit. -/
theorem collectState_occurrence_and_types (shapes : List ShapeValue)
    (f : String) :
    (collectState shapes).occ f =
        shapes.countP (fun s => decide (f ∈ getFieldPaths s "")) ∧
      (collectState shapes).types f = specTypeSet shapes f ∧
      (∀ t, t ∈ (collectState shapes).types f ↔
        ∃ s ∈ shapes, f ∈ getFieldPaths s "" ∧ getTypeAtPath s f = t) := by
  refine ⟨collectState_occ shapes f, collectState_types shapes f, ?_⟩
  intro t
  rw [collectState_types, mem_specTypeSet]

/-- Claim C5: the first shape plays no special role: under any permutation
of the shapes the set of paths reported missing, together with their
missing counts, and the set of paths reported type-inconsistent are
unchanged; the output's `shapes` field merely carries the input list
through for display. -/
theorem analyzeEndpointDiffs_perm_invariant (e e2 : GroupedEndpoint)
    (h : e.shapes.Perm e2.shapes) :
    (analyzeEndpointDiffs e).shapes = e.shapes
    ∧ (∀ (f : String) (k : Nat),
        (f, k) ∈ reportedMissingPairs e.shapes ↔
          (f, k) ∈ reportedMissingPairs e2.shapes)
    ∧ (∀ f : String,
        f ∈ typeConflictFields e.shapes ↔ f ∈ typeConflictFields e2.shapes) := by
  refine ⟨?_, ?_, ?_⟩
  · rw [analyzeEndpointDiffs]
    split <;> rfl
  · intro f k
    rw [mem_reportedMissingPairs, mem_reportedMissingPairs,
      perm_mem_fieldUniverseList h f, perm_specOccCount h f, h.length_eq]
  · intro f
    rw [mem_typeConflictFields, mem_typeConflictFields,
      perm_mem_fieldUniverseList h f, perm_typeConflict_iff h f]

/-- Witness for C5 at the sample endpoint and its swapped variant. -/
theorem analyzeEndpointDiffs_perm_invariant_witness :
    sampleEndpoint.shapes.Perm sampleEndpointSwapped.shapes ∧
      ((analyzeEndpointDiffs sampleEndpoint).shapes = sampleEndpoint.shapes
      ∧ (∀ (f : String) (k : Nat),
          (f, k) ∈ reportedMissingPairs sampleEndpoint.shapes ↔
            (f, k) ∈ reportedMissingPairs sampleEndpointSwapped.shapes)
      ∧ (∀ f : String,
          f ∈ typeConflictFields sampleEndpoint.shapes ↔
            f ∈ typeConflictFields sampleEndpointSwapped.shapes)) := by
  have hp : sampleEndpoint.shapes.Perm sampleEndpointSwapped.shapes :=
    List.Perm.swap _ _ _
  exact ⟨hp,
    analyzeEndpointDiffs_perm_invariant sampleEndpoint sampleEndpointSwapped hp⟩

/-- Claim C6: the shape of an empty array is the one-element sequence
`["unknown"]`; for a non-empty array the result depends only on the first
element (the tail is never inspected): an object first element recurses
through object extraction and is wrapped, an array first element recurses
through array-shape extraction and is wrapped, and any other first element
yields its primitive type tag wrapped in a one-element sequence. -/
theorem extractShape_array_first_element_only :
    extractShape (.arr []) = .arr [.prim "unknown"]
    ∧ (∀ (x : JsonValue) (r r2 : List JsonValue),
        extractShape (.arr (x :: r)) = extractShape (.arr (x :: r2)))
    ∧ (∀ (fs : List (String × JsonValue)) (r : List JsonValue),
        extractShape (.arr (.obj fs :: r)) = .arr [extractShape (.obj fs)])
    ∧ (∀ (es r : List JsonValue),
        extractShape (.arr (.arr es :: r)) = .arr [extractArrayShape es])
    ∧ (∀ (q : ℚ) (r : List JsonValue),
        extractShape (.arr (.num q :: r)) = .arr [.prim "number"])
    ∧ (∀ (s : String) (r : List JsonValue),
        extractShape (.arr (.str s :: r)) = .arr [.prim "string"])
    ∧ (∀ (b : Bool) (r : List JsonValue),
        extractShape (.arr (.bool b :: r)) = .arr [.prim "boolean"])
    ∧ (∀ r : List JsonValue,
        extractShape (.arr (.null :: r)) = .arr [.prim "null"])
    ∧ (∀ r : List JsonValue,
        extractShape (.arr (.undef :: r)) = .arr [.prim "undefined"])
    ∧ (∀ r : List JsonValue,
        extractShape (.arr (.unknownVal :: r)) = .arr [.prim "unknown"]) := by
  refine ⟨rfl, ?_, fun fs r => rfl, fun es r => rfl, ?_, fun s r => rfl,
    fun b r => rfl, fun r => rfl, fun r => rfl, fun r => rfl⟩
  · intro x r r2
    cases x <;> rfl
  · intro q r
    show ShapeValue.arr [.prim (getTypeName (.num q))] = .arr [.prim "number"]
    simp [getTypeName]

/-- Claim C7: `extractShape` is a total function on decoded JSON values
and tags primitives as follows: `null` to `"null"`, an undefined value to
`"undefined"`, every number — integral or not — to the one tag
`"number"`, strings to `"string"`, booleans to `"boolean"`, and an
unclassifiable value to `"unknown"`. -/
theorem extractShape_primitive_tags :
    extractShape .null = .prim "null"
    ∧ extractShape .undef = .prim "undefined"
    ∧ (∀ q : ℚ, extractShape (.num q) = .prim "number")
    ∧ (∀ s : String, extractShape (.str s) = .prim "string")
    ∧ (∀ b : Bool, extractShape (.bool b) = .prim "boolean")
    ∧ extractShape .unknownVal = .prim "unknown" := by
  refine ⟨rfl, rfl, ?_, fun s => rfl, fun b => rfl, rfl⟩
  intro q
  show ShapeValue.prim (getTypeName (.num q)) = .prim "number"
  simp [getTypeName]

/-- Claim C8: type resolution never fails on any shape/path pair — in the
embedding `getTypeAtPath` is a total function, the walk of the dot-split
segments. Whenever segments remain and the current node is not a plain
object shape (undefined, a primitive tag, an array, or `null`), the walk
returns `"unknown"` at once; in particular a missing intermediate field
yields `"unknown"`. A shape that does not contain a path contributes
neither to that path's occurrence count nor to its type set — the absent
path reaches the missing tally only through other shapes' occurrence
counts, not through the type mechanism. -/
theorem getTypeAtPath_never_fails :
    (∀ (s : ShapeValue) (p : String),
        getTypeAtPath s p = walkTypeAtPath (some s) (splitOnDot p))
    ∧ (∀ (part : String) (rest : List String),
        walkTypeAtPath none (part :: rest) = "unknown")
    ∧ (∀ (t part : String) (rest : List String),
        walkTypeAtPath (some (.prim t)) (part :: rest) = "unknown")
    ∧ (∀ (es : List ShapeValue) (part : String) (rest : List String),
        walkTypeAtPath (some (.arr es)) (part :: rest) = "unknown")
    ∧ (∀ (part : String) (rest : List String),
        walkTypeAtPath (some .nullShape) (part :: rest) = "unknown")
    ∧ (∀ (fields : List (String × ShapeValue)) (part : String)
          (rest : List String), lookupField fields part = none →
        walkTypeAtPath (some (.obj fields)) (part :: rest) = "unknown")
    ∧ (∀ (st : AnalyzerState) (shape : ShapeValue) (f : String),
        f ∉ getFieldPaths shape "" →
          (processShape st shape).occ f = st.occ f ∧
          (processShape st shape).types f = st.types f) := by
  refine ⟨fun s p => rfl, fun part rest => rfl, fun t part rest => rfl,
    fun es part rest => rfl, fun part rest => rfl, ?_, ?_⟩
  · intro fields part rest hnone
    show walkTypeAtPath (lookupField fields part) rest = "unknown"
    rw [hnone]
    exact walkTypeAtPath_none rest
  · intro st shape f hf
    constructor
    · rw [processShape_occ, if_neg hf, Nat.add_zero]
    · rw [processShape_types, if_neg hf]

/-- Witness for C8: an absent key under an object root, and a shape that
does not contain a path. -/
theorem getTypeAtPath_never_fails_witness :
    lookupField [] "user" = none ∧
      walkTypeAtPath (some (.obj [])) ("user" :: []) = "unknown" ∧
      "user" ∉ getFieldPaths (.prim "number") "" ∧
      (processShape initAnalyzerState (.prim "number")).occ "user" =
        initAnalyzerState.occ "user" ∧
      (processShape initAnalyzerState (.prim "number")).types "user" =
        initAnalyzerState.types "user" := by
  have h1 : lookupField ([] : List (String × ShapeValue)) "user" = none := rfl
  have h2 : "user" ∉ getFieldPaths (.prim "number") "" := by decide
  exact ⟨h1, getTypeAtPath_never_fails.2.2.2.2.2.1 [] "user" [] h1, h2,
    (getTypeAtPath_never_fails.2.2.2.2.2.2 initAnalyzerState (.prim "number")
      "user" h2).1,
    (getTypeAtPath_never_fails.2.2.2.2.2.2 initAnalyzerState (.prim "number")
      "user" h2).2⟩

/-- Claim C9: an endpoint whose shape list is any number of identical
copies of one shape yields no inconsistencies: every path occurs in all
copies and resolves to one and the same tag. -/
theorem analyzeEndpointDiffs_uniform_shapes_empty (e : GroupedEndpoint)
    (s : ShapeValue) (n : Nat) (h : e.shapes = List.replicate n s) :
    (analyzeEndpointDiffs e).inconsistencies = [] := by
  by_cases hlen : e.shapes.length ≤ 1
  · rw [analyzeEndpointDiffs, if_pos hlen]
  · have h2 : 2 ≤ e.shapes.length := by omega
    have hlen2 : e.shapes.length = n := by rw [h, List.length_replicate]
    rw [analyzeEndpointDiffs_inconsistencies_spec e h2, specInconsistencies,
      List.flatten_eq_nil_iff]
    intro l hl
    rw [List.mem_map] at hl
    obtain ⟨f, hf, rfl⟩ := hl
    have hf2 : f ∈ getFieldPaths s "" := by
      rw [h, mem_fieldUniverseList] at hf
      obtain ⟨s2, hs2, hfs⟩ := hf
      rwa [List.eq_of_mem_replicate hs2] at hfs
    obtain ⟨m, rfl⟩ : ∃ m, n = m + 1 := ⟨n - 1, by omega⟩
    rw [h, List.length_replicate, specMessagesAt,
      specOccCount_replicate (m + 1) s f hf2,
      specTypeSet_replicate_succ s f m hf2]
    simp

/-- Witness for C9 at three identical object shapes. -/
theorem analyzeEndpointDiffs_uniform_shapes_empty_witness :
    uniformEndpoint.shapes =
        List.replicate 3 (ShapeValue.obj [("id", ShapeValue.prim "number")]) ∧
      (analyzeEndpointDiffs uniformEndpoint).inconsistencies = [] :=
  ⟨rfl, analyzeEndpointDiffs_uniform_shapes_empty uniformEndpoint _ 3 rfl⟩

/-- Claim C10: root-level type drift is invisible: when every observed
shape has a non-object root (a primitive tag or an array shape), every
shape's path set is empty, so the field universe is empty and the analyzer
reports nothing even though the root types may differ. -/
theorem analyzeEndpointDiffs_nonobject_roots_empty (e : GroupedEndpoint)
    (h : ∀ s ∈ e.shapes, rootNonObject s = true) :
    (∀ s ∈ e.shapes, getFieldPaths s "" = []) ∧
      (analyzeEndpointDiffs e).inconsistencies = [] := by
  have hpaths : ∀ s ∈ e.shapes, getFieldPaths s "" = [] := by
    intro s hs
    cases s with
    | prim t => rw [getFieldPaths]; simp
    | arr es => rw [getFieldPaths]; simp
    | nullShape => rw [getFieldPaths]
    | obj fields =>
        exact absurd (h (ShapeValue.obj fields) hs) (by simp [rootNonObject])
  refine ⟨hpaths, ?_⟩
  by_cases hlen : e.shapes.length ≤ 1
  · rw [analyzeEndpointDiffs, if_pos hlen]
  · rw [analyzeEndpointDiffs_inconsistencies_spec e (by omega),
      specInconsistencies, List.flatten_eq_nil_iff]
    intro l hl
    rw [List.mem_map] at hl
    obtain ⟨f, hf, rfl⟩ := hl
    rw [mem_fieldUniverseList] at hf
    obtain ⟨s, hs, hfs⟩ := hf
    rw [hpaths s hs] at hfs
    exact absurd hfs (List.not_mem_nil f)

/-- Witness for C10 at two scalar observations of different root types. -/
theorem analyzeEndpointDiffs_nonobject_roots_empty_witness :
    (∀ s ∈ scalarEndpoint.shapes, rootNonObject s = true) ∧
      ((∀ s ∈ scalarEndpoint.shapes, getFieldPaths s "" = []) ∧
        (analyzeEndpointDiffs scalarEndpoint).inconsistencies = []) :=
  ⟨by decide, analyzeEndpointDiffs_nonobject_roots_empty scalarEndpoint (by decide)⟩
